import Mathlib

/-!
Shallow embedding, in Lean 4, of the utility layer of the `console` repository:

* `src/mock-api/msw/util.ts` — pagination (`paginated`), role resolution
  (`roleOrStronger`, `userHasRole`), IP range membership (`ipInRange`,
  `ipInAnyRange`) and the synthetic metrics generator (`generateUtilization`
  with its `Rando` linear congruential generator);
* `src/app/components/oxql-metrics/util.ts` — OxQL result shaping
  (`sumValues`, `composeOxqlData`, `getMeanWithinSeconds`,
  `getTimePropsForOxqlQuery`, `getLargestValue`, `getMaxExponent`,
  `getBytesChartProps`, `getUtilizationChartProps`).

Modelling conventions:

* JavaScript numbers are embedded as `ℚ` (exact arithmetic; the float
  rounding of IEEE doubles is abstracted away), array indices and sizes as
  `ℕ`, and epoch timestamps as `ℤ` milliseconds.
* `null`/`undefined` slots are `Option`; a JavaScript expression that throws
  a `TypeError` (such as reading `.id` of `undefined`) is embedded as a
  `none` result of an `Option`-returning function.
* JavaScript `Array.prototype.slice`, `Math.round`, `Math.floor` and the
  truncating division used by date-fns `differenceInSeconds` are embedded
  by `jsSlice`, `jsRound`, `Int.floor`/`Rat` floors and `truncQ` below.
-/

namespace Console

/-- JavaScript `Math.trunc`-style conversion of a rational to an integer:
round toward zero (used by date-fns `differenceInSeconds`, whose default
rounding method is truncation). -/
def truncQ (q : ℚ) : ℤ := if 0 ≤ q then ⌊q⌋ else -⌊-q⌋

/-- JavaScript `Math.round`: half-way cases round toward positive infinity,
i.e. `Math.round x = ⌊x + 1/2⌋`. -/
def jsRound (q : ℚ) : ℤ := ⌊q + 1/2⌋

/-- date-fns `differenceInSeconds(laterMs, earlierMs)`: the millisecond
difference divided by 1000 and truncated toward zero. -/
def differenceInSeconds (laterMs earlierMs : ℤ) : ℤ :=
  truncQ (((laterMs - earlierMs : ℤ) : ℚ) / 1000)

/-- JavaScript `Array.prototype.slice(b, e)` with the ECMAScript treatment of
negative and out-of-bounds endpoints: negative indices count from the end of
the array, and the result is the elements from the resolved begin (inclusive)
to the resolved end (exclusive). -/
def jsSlice {α : Type} (xs : List α) (b e : ℤ) : List α :=
  let len : ℤ := xs.length
  let b2 : ℤ := if b < 0 then max (len + b) 0 else min b len
  let e2 : ℤ := if e < 0 then max (len + e) 0 else min e len
  (xs.take e2.toNat).drop b2.toNat

/-! ## Pagination (`paginated`, src/mock-api/msw/util.ts lines 48–76)

The TypeScript function is generic over `I extends { id: string }`; we embed
the items as a structure with an `id` and an opaque payload field, which is
all the function ever inspects. -/

/-- An element of a paginated collection: the `id` the paginator reads plus an
opaque payload standing for the rest of the object's fields. -/
structure Item where
  id : String
  payload : ℤ
deriving DecidableEq, Repr

/-- The result shape of `paginated`: a page of items and the token for the
next page (`null` when the collection is exhausted). -/
structure ResultsPage where
  items : List Item
  nextPage : Option String
deriving DecidableEq, Repr

/-- Resolution of the incoming page token to a start index, embedding

```ts
let startIndex = pageToken ? items.findIndex((i) => i.id === pageToken) : 0
startIndex = startIndex < 0 ? 0 : startIndex
```

A `null`/`undefined` token and the empty string are both falsy in
JavaScript, so both skip the scan and start at 0; a token that matches no
item makes `findIndex` return `-1`, which the next line clamps to 0. -/
def resolveStart (pageToken? : Option String) (items : List Item) : ℕ :=
  match pageToken? with
  | none => 0
  | some tok =>
    if tok = "" then 0
    else (items.findIdx? (fun i => i.id = tok)).getD 0

/-- Embedding of `paginated` (src/mock-api/msw/util.ts lines 48–76).
`limit?`/`pageToken?` are the `params` fields, with `none` standing for both
`null` and `undefined`; `params.limit || 100` replaces a falsy (0 or absent)
limit by the default 100.  The result is `none` exactly when the JavaScript
would throw (reading `.id` of `items[startIndex + limit]` when that index is
negative, which needs a negative limit). -/
def paginated (limit? : Option ℤ) (pageToken? : Option String) (items : List Item) :
    Option ResultsPage :=
  let limit : ℤ := match limit? with
    | none => 100
    | some l => if l = 0 then 100 else l
  let startIndex : ℕ := resolveStart pageToken? items
  if (startIndex : ℤ) > (items.length : ℤ) then
    some ⟨[], none⟩
  else if limit + startIndex ≥ (items.length : ℤ) then
    some ⟨jsSlice items startIndex items.length, none⟩
  else
    let j : ℤ := startIndex + limit
    if 0 ≤ j then
      match items[j.toNat]? with
      | some it => some ⟨jsSlice items startIndex j, some it.id⟩
      | none => none
    else none

/-- The chain of `paginated` calls described by the spec: call once with the
given token; if the reply carries a `nextPage` token, recurse on it and
prepend this page's items.  `fuel` bounds the number of calls, so that a
chain that never reaches a `null` token (or a call that throws) yields
`none`; a chain of `k` pages succeeds for any `fuel > k`. -/
def collectPages (limit? : Option ℤ) (items : List Item) :
    ℕ → Option String → Option (List Item)
  | 0, _ => none
  | fuel + 1, tok =>
    match paginated limit? tok items with
    | none => none
    | some page =>
      match page.nextPage with
      | none => some page.items
      | some tok2 => (collectPages limit? items fuel (some tok2)).map (page.items ++ ·)

/-! ## Role resolution (`roleOrStronger`, `userHasRole`,
src/mock-api/msw/util.ts lines 324–361)

The mock database tables the function reads (`db.groupMemberships`,
`db.userGroups`, `db.roleAssignments`) are passed explicitly as a `Db`
record; resource types are embedded as strings. -/

/-- The role keys of the authorization model, ordered viewer < collaborator
< admin. -/
inductive RoleKey
  | viewer
  | collaborator
  | admin
deriving DecidableEq, Repr

/-- Embedding of the hard-coded `roleOrStronger` table: given a role A, the
list of roles (including A) that confer at least the powers of A. -/
def roleOrStronger : RoleKey → List RoleKey
  | .viewer => [.viewer, .collaborator, .admin]
  | .collaborator => [.collaborator, .admin]
  | .admin => [.admin]

/-- A user identity (only the `id` field is read by `userHasRole`). -/
structure User where
  id : String
deriving DecidableEq, Repr

/-- A group-membership record associating a user identity with a group. -/
structure GroupMembership where
  userId : String
  groupId : String
deriving DecidableEq, Repr

/-- A user group (only the `id` field is read by `userHasRole`). -/
structure UserGroup where
  id : String
deriving DecidableEq, Repr

/-- A role assignment: (resource type, resource id, identity id) ↦ role. -/
structure RoleAssignment where
  resource_type : String
  resource_id : String
  identity_id : String
  role_name : RoleKey
deriving DecidableEq, Repr

/-- The slices of the mock database consulted by `userHasRole`. -/
structure Db where
  groupMemberships : List GroupMembership
  userGroups : List UserGroup
  roleAssignments : List RoleAssignment
deriving DecidableEq, Repr

/-- Embedding of `userHasRole` (src/mock-api/msw/util.ts lines 337–361):
collect the ids of the groups the user belongs to (memberships whose group
exists in `db.userGroups`), collect the identities holding at least `role`
on exactly (`resourceType`, `resourceId`), and test whether the user's own
id or one of the group ids is among them. -/
def userHasRole (db : Db) (user : User) (resourceType : String)
    (resourceId : String) (role : RoleKey) : Bool :=
  let userGroupIds :=
    ((db.groupMemberships.filter (fun gm => gm.userId = user.id)).filterMap
      (fun gm => db.userGroups.find? (fun g => g.id = gm.groupId))).map
      UserGroup.id
  let actorsWithRole :=
    (db.roleAssignments.filter (fun ra =>
      ra.resource_type = resourceType && ra.resource_id = resourceId &&
        (roleOrStronger role).contains ra.role_name)).map
      RoleAssignment.identity_id
  (user.id :: userGroupIds).any (fun id => actorsWithRole.contains id)

/-! ## IP range containment (`ipInRange`, `ipInAnyRange`,
src/mock-api/msw/util.ts lines 392–411) -/

/-- An IP address family, as reported by `parseIp(...).type`. -/
inductive IpFam
  | v4
  | v6
deriving DecidableEq, Repr

/-- Modelled from the spec: `parseIp` (`~/util/ip`) and the `ip-num`
`IPv4`/`IPv6` conversion are not under `src/`; per the spec, a textual
address parses to its family (v4 or v6) and its value as a 128-bit-capable
unsigned integer, so an address is embedded as that pair. -/
structure IpAddr where
  fam : IpFam
  val : ℕ
deriving DecidableEq, Repr

/-- An IP range: ordered pair of addresses (the data-model invariant is that
both endpoints have the same family). -/
structure IpRange where
  first : IpAddr
  last : IpAddr
deriving DecidableEq, Repr

/-- Modelled from the spec: `ipToBigInt` converts a parsed address to the
wide unsigned integer the comparisons run on. -/
def ipToBigInt (ip : IpAddr) : ℕ := ip.val

/-- Embedding of `ipInRange` (src/mock-api/msw/util.ts lines 398–408): a
probe whose family differs from the range's (as sampled on `first`) is never
contained — false, not an error; otherwise compare values inclusively on
both endpoints. -/
def ipInRange (ip : IpAddr) (r : IpRange) : Bool :=
  let ipIsV4 := ip.fam == IpFam.v4
  let rangeIsV4 := r.first.fam == IpFam.v4
  if ipIsV4 != rangeIsV4 then false
  else
    let ipNum := ipToBigInt ip
    ipToBigInt r.first ≤ ipNum && ipNum ≤ ipToBigInt r.last

/-- Embedding of `ipInAnyRange` (src/mock-api/msw/util.ts lines 410–411). -/
def ipInAnyRange (ip : IpAddr) (ranges : List IpRange) : Bool :=
  ranges.any (fun range => ipInRange ip range)

/-- Modelled from the spec: a run of ASCII digits as a natural number
(`none` if empty or non-digit), used by the dotted-quad IPv4 parse. -/
def digitsToNat? (cs : List Char) : Option ℕ :=
  if cs ≠ [] ∧ cs.all Char.isDigit then
    some (cs.foldl (fun acc c => acc * 10 + (c.toNat - 48)) 0)
  else none

/-- Modelled from the spec: the textual IPv4 parse (the repository's
`parseIp` plus ip-num's `IPv4`, not under `src/`): four dot-separated octets
in 0..255, valued big-endian. -/
def parseIPv4 (s : String) : Option IpAddr :=
  match (s.toList.splitOn '.').mapM digitsToNat? with
  | some [a, b, c, d] =>
    if a < 256 ∧ b < 256 ∧ c < 256 ∧ d < 256 then
      some ⟨IpFam.v4, ((a * 256 + b) * 256 + c) * 256 + d⟩
    else none
  | _ => none

/-! ## OxQL result shaping (src/app/components/oxql-metrics/util.ts)

The OxQL result types: a query result holds tables; a table holds (the
`Object.values` of) named timeseries; a timeseries holds points: a list of
timestamps (embedded directly as epoch milliseconds, abstracting the ISO
string and `new Date(t).getTime()`) and a list of value arrays, each a list
of number-or-null entries. -/

/-- One value array of a timeseries (`points.values[k].values.values` in the
API shape): a list of numeric-or-null samples. -/
structure Values where
  values : List (Option ℚ)
deriving DecidableEq, Repr

/-- The points of a timeseries: the shared timestamp axis plus the value
arrays (`sumValues` only reads the first one, via `.at(0)`). -/
structure Points where
  timestamps : List ℤ
  values : List Values
deriving DecidableEq, Repr

/-- A single timeseries of a query result. -/
structure Timeseries where
  points : Points
deriving DecidableEq, Repr

/-- A table of a query result: the list of its timeseries, in the insertion
order `Object.values` yields. -/
structure Table where
  timeseries : List Timeseries
deriving DecidableEq, Repr

/-- An OxQL query result. -/
structure OxqlQueryResult where
  tables : List Table
deriving DecidableEq, Repr

/-- A chart datum: a timestamp and an optional value (absence is a gap, not
zero). -/
structure ChartDatum where
  timestamp : ℤ
  value : Option ℚ
deriving DecidableEq, Repr

/-- The oximeter polling interval for CPU data, a constant (seconds). -/
def VCPU_KSTAT_INTERVAL_SEC : ℕ := 5

/-- Embedding of `sumValues` (src/app/components/oxql-metrics/util.ts lines
111–123): for each index `i` up to `arrLen`, collect
`ts.points.values.at(0)?.values.values?.[i]` from each timeseries, keep only
the numeric entries (dropping `null` and out-of-range `undefined`), and sum
them — or yield `null` when no timeseries has a numeric value there, so
empty parts of the chart stay empty. -/
def sumValues (timeseries : List Timeseries) (arrLen : ℕ) : List (Option ℚ) :=
  (List.range arrLen).map (fun i =>
    let points := timeseries.filterMap (fun ts =>
      ((ts.points.values.head?).bind (fun va => va.values[i]?)).join)
    if points.length > 0 then some points.sum else none)

/-- Embedding of `composeOxqlData` (src/app/components/oxql-metrics/util.ts
lines 129–148): sum the timeseries of the first table over the shared
timestamp axis, pair timestamps with summed values, and drop the first
datapoint (`slice(1)`).  The result also carries `timeseriesCount`; `none`
embeds the TypeError the JavaScript throws when `data.tables` is empty. -/
def composeOxqlData (data? : Option OxqlQueryResult) :
    Option (List ChartDatum × ℕ) :=
  match data? with
  | none => some ([], 0)
  | some data =>
    match data.tables.head? with
    | none => none
    | some table =>
      let timeseriesData := table.timeseries
      let timeseriesCount := timeseriesData.length
      if timeseriesCount = 0 then some ([], 0)
      else
        let timestamps := match timeseriesData.head? with
          | some ts => ts.points.timestamps
          | none => []
        let summedValues := sumValues timeseriesData timestamps.length
        let chartData := ((timestamps.zip summedValues).map
          (fun p => ChartDatum.mk p.1 p.2)).drop 1
        some (chartData, timeseriesCount)

/-- Embedding of `getMeanWithinSeconds` (lines 91–95): the duration in
seconds divided by the desired datapoint count, rounded, with a 5-second
minimum (the oximeter logging interval). -/
def getMeanWithinSeconds (start end_ : ℤ) (datapoints : ℕ) : ℤ :=
  let duration := differenceInSeconds end_ start
  max (VCPU_KSTAT_INTERVAL_SEC : ℤ) (jsRound ((duration : ℚ) / (datapoints : ℚ)))

/-- The result of `getTimePropsForOxqlQuery`: the mean window (seconds) and
the adjusted query start (epoch milliseconds). -/
structure OxqlTimeProps where
  meanWithinSeconds : ℤ
  adjustedStart : ℤ
deriving DecidableEq, Repr

/-- Embedding of `getTimePropsForOxqlQuery` (lines 97–109): shift the
requested start back by twice the mean window, to compensate for the dropped
first datapoint. -/
def getTimePropsForOxqlQuery (startTime endTime : ℤ) (datapoints : ℕ) :
    OxqlTimeProps :=
  let meanWithinSeconds := getMeanWithinSeconds startTime endTime datapoints
  let secondsToAdjust := meanWithinSeconds * 2
  ⟨meanWithinSeconds, startTime - secondsToAdjust * 1000⟩

/-- The common result shape of the chart-props helpers.  The
`yAxisTickFormatter` closure is omitted (pure presentation); `unitForSet`
is an `Option` because `byteUnits[maxExponent]` is `undefined` beyond
`TiB`. -/
structure OxqlMetricChartProps where
  data : List ChartDatum
  label : String
  unitForSet : Option String
deriving DecidableEq, Repr

/-- Embedding of `getLargestValue` (lines 78–79): 0 for an empty data set,
otherwise `Math.max(0, ...values-without-nulls)`. -/
def getLargestValue (data : List ChartDatum) : ℚ :=
  match data with
  | [] => 0
  | _ => (data.filterMap (fun d => d.value)).foldl max 0

/-- Embedding of `getMaxExponent` (lines 81–82), i.e.
`Math.max(Math.floor(Math.log largestValue / Math.log base), 0)` in
real-log semantics (the float rounding of `Math.log` is abstracted): for
`largestValue ≥ 1` this is `Nat.log base ⌊largestValue⌋`; for smaller
values (where the real log ratio is negative or `-∞`) the `Math.max`
clamps the result to 0. -/
def getMaxExponent (largestValue : ℚ) (base : ℕ) : ℕ :=
  if 1 ≤ largestValue then Nat.log base ⌊largestValue⌋₊ else 0

/-- The byte units of `getBytesChartProps`, indexed by exponent of 1024. -/
def byteUnits : List String := ["Bytes", "KiB", "MiB", "GiB", "TiB"]

/-- Embedding of `getBytesChartProps` (lines 163–181): pick the largest
power of 1024 not exceeding the largest value, divide every non-null value
by it, and label with the matching byte unit. -/
def getBytesChartProps (chartData : List ChartDatum) : OxqlMetricChartProps :=
  let base : ℕ := 1024
  let largestValue := getLargestValue chartData
  let maxExponent := getMaxExponent largestValue base
  let bytesChartDivisor : ℚ := (base : ℚ) ^ maxExponent
  let data := chartData.map (fun d =>
    ChartDatum.mk d.timestamp (d.value.map (fun v => v / bytesChartDivisor)))
  let unitForSet := byteUnits[maxExponent]?
  ⟨data, "(" ++ unitForSet.getD "undefined" ++ ")", unitForSet⟩

/-- Embedding of `getUtilizationChartProps` (lines 205–220): divide each
non-null value by (5 s × 10⁹ ns × `nCPUs`) and express as a percentage;
when the divisor is not positive (core count 0), return an empty data array
instead of dividing. -/
def getUtilizationChartProps (chartData : List ChartDatum) (nCPUs : ℚ) :
    OxqlMetricChartProps :=
  let divisor : ℚ := (VCPU_KSTAT_INTERVAL_SEC : ℚ) * 1000 * 1000 * 1000 * nCPUs
  let data :=
    if divisor > 0 then
      chartData.map (fun d =>
        ChartDatum.mk d.timestamp (d.value.map (fun v => v * 100 / divisor)))
    else []
  ⟨data, "(%)", some "%"⟩

/-! ## Synthetic metrics generator (`Rando`, `generateUtilization`,
src/mock-api/msw/util.ts lines 156–267)

Non-source inputs are passed explicitly: `Date.now()` as `nowMs`, the single
`Math.random()` sample of the final scaling as `rand`.  `totalCapacity` and
the `GiB`/`TiB` unit constants live outside `src/` and are modelled from the
spec: the generator only needs the selected capacity of the metric kind, so
the cluster capacity is passed as a record of the three fields the source
reads (`cpu`, `disk_tib`, `ram_gib`). -/

/-- The three system metric names the generator distinguishes. -/
inductive SystemMetricName
  | cpus_provisioned
  | virtual_disk_space_provisioned
  | ram_provisioned
deriving DecidableEq, Repr

/-- The metric name as the string the checksum seed is computed from. -/
def systemMetricNameStr : SystemMetricName → String
  | .cpus_provisioned => "cpus_provisioned"
  | .virtual_disk_space_provisioned => "virtual_disk_space_provisioned"
  | .ram_provisioned => "ram_provisioned"

/-- Modelled from the spec: the `GiB` unit constant (`~/util/units`, not
under `src/`), 2³⁰ bytes. -/
def GiB : ℚ := 2 ^ 30

/-- Modelled from the spec: the `TiB` unit constant (`~/util/units`, not
under `src/`), 2⁴⁰ bytes. -/
def TiB : ℚ := 2 ^ 40

/-- Modelled from the spec: the result shape of `totalCapacity` (from
`@oxide/api`, not under `src/`) — cluster capacity as a CPU count, disk
space in TiB and RAM in GiB, the three fields `generateUtilization`
reads. -/
structure Capacity where
  cpu : ℚ
  disk_tib : ℚ
  ram_gib : ℚ
deriving DecidableEq, Repr

/-- The capacity ceiling selected for the metric kind, embedding the `cap`
ternary of `generateUtilization` (lines 192–197): a CPU count for
`cpus_provisioned`, bytes otherwise. -/
def selectedCapacity (metricName : SystemMetricName) (capacity : Capacity) : ℚ :=
  match metricName with
  | .cpus_provisioned => capacity.cpu
  | .virtual_disk_space_provisioned => capacity.disk_tib * TiB
  | .ram_provisioned => capacity.ram_gib * GiB

/-- The checksum seed of the metric name: the sum of its character codes
(lines 198–201). -/
def metricNameSeed (metricName : SystemMetricName) : ℕ :=
  ((systemMetricNameStr metricName).toList.map Char.toNat).sum

/-- One step of the `Rando` linear congruential generator with its default
parameters a = 1664525, c = 1013904223, m = 2³² (lines 156–173):
`seed ← (a * seed + c) % m`.  JavaScript `%` keeps the dividend's sign
(`Int.tmod`); the float rounding the very first step can suffer when the
initial epoch-millisecond seed exceeds 2⁵³ ⁄ a is abstracted (the result is
still an integer, and `next()` still returns `seed / m < 1`, which is all
the proofs use). -/
def randoNext (seed : ℤ) : ℤ :=
  (1664525 * seed + 1013904223).tmod (2 ^ 32)

/-- The value `Rando.next()` returns after the seed update: `seed / m`. -/
def randoFrac (seed : ℤ) : ℚ := ((randoNext seed : ℤ) : ℚ) / 2 ^ 32

/-- One "do something" iteration of the random-walk loop of
`generateUtilization` (lines 222–249), at index `i` with previous value
`prev`, after drawing `random = rando.next()`: inside the two upward-biased
sub-windows (`i < 250` or `500 < i < 750`) the offset threshold is 1,
elsewhere 0.375; an offset `⌊random · 50⌋` is taken when `random` is below
the threshold, negated when `random` is below threshold ⁄ 2.5; the offset is
added when `random > 0.72`, otherwise subtracted with a floor at 0. -/
def walkStep (i : ℕ) (prev : ℚ) (seed : ℤ) : ℚ :=
  let random : ℚ := randoFrac seed
  let threshold : ℚ := if i < 250 ∨ (500 < i ∧ i < 750) then 1 else 0.375
  let offset : ℤ :=
    if random < threshold then
      if random < threshold / 2.5 then -⌊random * 50⌋ else ⌊random * 50⌋
    else 0
  if random > 0.72 then prev + (offset : ℚ) else max (prev - (offset : ℚ)) 0

/-- The random-walk loop of `generateUtilization` (lines 221–250), producing
`values[i], values[i+1], …` for `rem` more entries: each entry copies the
previous one, except that when the counter `x` reaches `valueInterval` the
entry is `walkStep` of the previous one (consuming one `rando.next()` draw)
and `x` resets.  `valueInterval = none` embeds the `Infinity` interval of a
zero-length time range, which the counter never reaches. -/
def genWalk (valueInterval : Option ℕ) :
    ℕ → ℕ → ℚ → ℕ → ℤ → List ℚ
  | 0, _, _, _, _ => []
  | rem + 1, i, prev, x, seed =>
    if valueInterval = some x then
      let v := walkStep i prev seed
      v :: genWalk valueInterval rem (i + 1) v 0 (randoNext seed)
    else
      prev :: genWalk valueInterval rem (i + 1) prev (x + 1) seed

/-- JavaScript `Math.max(...list)` over a non-empty spread (`Math.max()` of
an empty list is `-Infinity`, unreachable here: the generator always has
1000 entries). -/
def jsMax : List ℚ → ℚ
  | [] => 0
  | h :: t => t.foldl max h

/-- Embedding of `generateUtilization` (lines 175–267).  `nowMs` is
`Date.now()`; `rand` is the `Math.random()` sample of the final scaling
step.  The start time is clamped to at most 90 days before `nowMs`; the
LCG is seeded with the adjusted start time plus the metric-name checksum;
`valueInterval = ⌊dataCount / (diffSeconds / 900)⌋ = ⌊900000 / diffSeconds⌋`
spaces the walk steps; the 1000 walk values (starting at 500) are then
normalized by their maximum, scaled by the capacity ceiling and by a random
factor in [0.33, 1), and floored to whole numbers for the CPU metric. -/
def generateUtilization (metricName : SystemMetricName)
    (startTimeMs endTimeMs nowMs : ℤ) (capacity : Capacity) (rand : ℚ) :
    List ℚ :=
  let adjStartTimeMs : ℤ := max startTimeMs (nowMs - 1000 * 60 * 60 * 24 * 90)
  let cap : ℚ := selectedCapacity metricName capacity
  let seed : ℤ := adjStartTimeMs + (metricNameSeed metricName : ℤ)
  let diff : ℕ := (differenceInSeconds adjStartTimeMs endTimeMs).natAbs
  let valueInterval : Option ℕ := if diff = 0 then none else some (900000 / diff)
  let startVal : ℚ := 500
  let values : List ℚ := startVal :: genWalk valueInterval 999 1 startVal 0 seed
  let currentMax : ℚ := jsMax values
  let randomFactor : ℚ := rand * (1 - 0.33) + 0.33
  values.map (fun value =>
    let v := value / currentMax * cap * randomFactor
    if metricName = SystemMetricName.cpus_provisioned then ((⌊v⌋ : ℤ) : ℚ) else v)

/-! ## Theorems -/

/-- `findIndex` never reports an index beyond the end of the array. -/
theorem findIdx?_lt_length {α : Type} {p : α → Bool} :
    ∀ (l : List α) (i : ℕ), l.findIdx? p = some i → i < l.length := by
  intro l
  induction l with
  | nil => intro i h; simp [List.findIdx?_nil] at h
  | cons x xs ih =>
    intro i h
    rw [List.findIdx?_cons] at h
    by_cases hx : p x
    · simp [hx] at h
      simp [← h]
    · simp only [hx, if_false, List.findIdx?_succ] at h
      obtain ⟨j, hj, rfl⟩ := Option.map_eq_some'.mp h
      have := ih j hj
      simp only [List.length_cons]
      omega

/-- The resolved start index never exceeds the collection length. -/
theorem resolveStart_le (tok : Option String) (items : List Item) :
    resolveStart tok items ≤ items.length := by
  match tok with
  | none => simp [resolveStart]
  | some t =>
    simp only [resolveStart]
    by_cases ht : t = ""
    · simp [ht]
    · simp only [ht, if_false]
      cases hf : items.findIdx? (fun i => i.id = t) with
      | none => simp
      | some i => exact Nat.le_of_lt (Option.getD_some ▸ findIdx?_lt_length items i hf)

/-- A token matching no item's id resolves to the first page (index 0); so
does the empty-string token, which JavaScript treats as missing. -/
theorem resolveStart_of_no_match (tok : String) (items : List Item)
    (h : ∀ it ∈ items, it.id ≠ tok) : resolveStart (some tok) items = 0 := by
  simp only [resolveStart]
  by_cases ht : tok = ""
  · simp [ht]
  · have : items.findIdx? (fun i => i.id = tok) = none := by
      rw [List.findIdx?_eq_none_iff]
      intro x hx
      simp [h x hx]
    simp [ht, this]

/-- With pairwise-distinct ids, the id of the item at index `n` resolves back
to exactly index `n` (provided that id is not the empty string, which
JavaScript would treat as a missing token). -/
theorem resolveStart_getElem (items : List Item)
    (hnd : (items.map Item.id).Nodup) (n : ℕ) (hn : n < items.length)
    (hne : items[n].id ≠ "") :
    resolveStart (some items[n].id) items = n := by
  simp only [resolveStart, hne, if_false]
  suffices hfi : items.findIdx? (fun i => i.id = items[n].id) = some n by
    simp [hfi]
  clear hne
  induction items generalizing n with
  | nil => simp at hn
  | cons x xs ih =>
    simp only [List.map_cons, List.nodup_cons] at hnd
    cases n with
    | zero => simp [List.findIdx?_cons]
    | succ m =>
      have hm : m < xs.length := by simpa using hn
      have hmem : xs[m].id ∈ xs.map Item.id :=
        List.mem_map.mpr ⟨xs[m], List.getElem_mem _, rfl⟩
      have hx : ¬(x.id = xs[m].id) := by
        intro hcontra
        exact hnd.1 (hcontra ▸ hmem)
      simp only [List.getElem_cons_succ]
      rw [List.findIdx?_cons]
      simp [hx, List.findIdx?_succ, ih hnd.2 m hm]

/-- `items.slice(s, items.length)` with `s ≤ length` is `drop s`. -/
theorem jsSlice_drop {α : Type} (xs : List α) (s : ℕ) (hs : s ≤ xs.length) :
    jsSlice xs (s : ℤ) (xs.length : ℤ) = xs.drop s := by
  simp only [jsSlice]
  rw [if_neg (by omega), if_neg (by omega)]
  have h1 : (min (s : ℤ) (xs.length : ℤ)).toNat = s := by omega
  have h2 : (min (xs.length : ℤ) (xs.length : ℤ)).toNat = xs.length := by omega
  rw [h1, h2, List.take_length]

/-- `items.slice(s, s + k)` with `s + k ≤ length` is `(drop s).take k`. -/
theorem jsSlice_window {α : Type} (xs : List α) (s k : ℕ) (h : s + k ≤ xs.length) :
    jsSlice xs (s : ℤ) ((s : ℤ) + (k : ℤ)) = (xs.drop s).take k := by
  simp only [jsSlice]
  rw [if_neg (by omega), if_neg (by omega)]
  have h1 : (min (s : ℤ) (xs.length : ℤ)).toNat = s := by omega
  have h2 : (min ((s : ℤ) + (k : ℤ)) (xs.length : ℤ)).toNat = s + k := by omega
  rw [h1, h2, List.drop_take]
  congr 1
  omega

/-- Closed form of `paginated` with a positive limit `L`: let `s` be the
resolved start index; if fewer than `L` items remain from `s` the page is
`items.drop s` with a `null` token, otherwise it is the `L`-item window at
`s` and the token is the id of the item at index `s + L` — the first item of
the *next* page, not the last item of this one. -/
theorem paginated_eq_of_pos (L : ℤ) (hL : 0 < L) (tok : Option String)
    (items : List Item) :
    paginated (some L) tok items =
      if items.length ≤ resolveStart tok items + L.toNat then
        some ⟨items.drop (resolveStart tok items), none⟩
      else
        some ⟨(items.drop (resolveStart tok items)).take L.toNat,
              (items[resolveStart tok items + L.toNat]?).map Item.id⟩ := by
  have hs : resolveStart tok items ≤ items.length := resolveStart_le tok items
  simp only [paginated]
  rw [if_neg (by omega : ¬(L = 0))]
  rw [if_neg (by omega)]
  by_cases hfits : items.length ≤ resolveStart tok items + L.toNat
  · rw [if_pos (by omega), if_pos hfits]
    rw [jsSlice_drop items _ hs]
  · rw [if_neg (by omega), if_neg hfits]
    rw [if_pos (by omega : (0 : ℤ) ≤ (resolveStart tok items : ℤ) + L)]
    have hidx : ((resolveStart tok items : ℤ) + L).toNat
        = resolveStart tok items + L.toNat := by omega
    have hlt : resolveStart tok items + L.toNat < items.length := by omega
    obtain ⟨it, hit⟩ : ∃ it, items[resolveStart tok items + L.toNat]? = some it :=
      ⟨items[resolveStart tok items + L.toNat], List.getElem?_eq_getElem hlt⟩
    rw [hidx, hit]
    have hcast : ((resolveStart tok items : ℤ) + L)
        = ((resolveStart tok items : ℤ) + (L.toNat : ℤ)) := by omega
    rw [hcast, jsSlice_window items (resolveStart tok items) L.toNat (by omega)]
    simp

/-- The head of `take k` for positive `k` is the head of the list. -/
theorem head?_take_pos {α : Type} (l : List α) (k : ℕ) (hk : 0 < k) :
    (l.take k).head? = l.head? := by
  cases l with
  | nil => simp
  | cons x xs =>
    cases k with
    | zero => omega
    | succ m => simp

/-- Chaining `paginated` calls with a positive limit over a collection with
pairwise-distinct, non-empty ids gathers exactly the items from the resolved
start index to the end, provided the fuel exceeds the number of remaining
items. -/
theorem collectPages_eq (items : List Item)
    (hnd : (items.map Item.id).Nodup) (hne : ∀ it ∈ items, it.id ≠ "")
    (L : ℤ) (hL : 0 < L) :
    ∀ (fuel : ℕ) (tok : Option String),
      items.length - resolveStart tok items < fuel →
      collectPages (some L) items fuel tok
        = some (items.drop (resolveStart tok items)) := by
  intro fuel
  induction fuel with
  | zero => intro tok h; omega
  | succ fuel ih =>
    intro tok h
    simp only [collectPages]
    rw [paginated_eq_of_pos L hL tok items]
    by_cases hfit : items.length ≤ resolveStart tok items + L.toNat
    · simp only [if_pos hfit]
    · simp only [if_neg hfit]
      have hlt : resolveStart tok items + L.toNat < items.length := by omega
      have hget : items[resolveStart tok items + L.toNat]?
          = some items[resolveStart tok items + L.toNat] :=
        List.getElem?_eq_getElem hlt
      rw [hget]
      simp only [Option.map_some']
      have hLpos : 0 < L.toNat := by omega
      have hmem : items[resolveStart tok items + L.toNat] ∈ items :=
        List.getElem_mem _
      have hresolve : resolveStart
          (some items[resolveStart tok items + L.toNat].id) items
          = resolveStart tok items + L.toNat :=
        resolveStart_getElem items hnd _ hlt (hne _ hmem)
      have hrec := ih (some items[resolveStart tok items + L.toNat].id)
        (by rw [hresolve]; omega)
      rw [hrec, hresolve]
      simp only [Option.map_some']
      congr 1
      have hdd : items.drop (resolveStart tok items + L.toNat)
          = (items.drop (resolveStart tok items)).drop L.toNat := by
        rw [List.drop_drop]
      rw [hdd, List.take_append_drop]

/-- Claim C1 (amended: ids must additionally be non-empty strings, because
JavaScript treats an empty-string page token as a missing one and restarts):
for every collection of items with pairwise-distinct non-empty ids and every
positive limit `L`, the chain of `paginated` calls linked by the returned
`nextPage` tokens, starting with no token, terminates (with a final `null`
token) and its concatenated pages are exactly the collection, each item
visited once, in order; and a call whose page token matches no item's id
returns the same result as a call with no token at all. -/
theorem paginated_chain_complete (items : List Item)
    (hnd : (items.map Item.id).Nodup) (hne : ∀ it ∈ items, it.id ≠ "")
    (L : ℤ) (hL : 0 < L) :
    collectPages (some L) items (items.length + 1) none = some items ∧
    ∀ tok : String, (∀ it ∈ items, it.id ≠ tok) →
      paginated (some L) (some tok) items = paginated (some L) none items := by
  constructor
  · have h := collectPages_eq items hnd hne L hL (items.length + 1) none
      (by simp [resolveStart])
    simpa [resolveStart] using h
  · intro tok htok
    have h0 : resolveStart (some tok) items = resolveStart none items := by
      rw [resolveStart_of_no_match tok items htok]
      rfl
    simp only [paginated, h0]

/-- Witness for `paginated_chain_complete` at a concrete three-item
collection with limit 2. -/
theorem paginated_chain_complete_witness :
    (([⟨"a", 0⟩, ⟨"b", 1⟩, ⟨"c", 2⟩] : List Item).map Item.id).Nodup ∧
    collectPages (some 2) [⟨"a", 0⟩, ⟨"b", 1⟩, ⟨"c", 2⟩] 4 none
      = some [⟨"a", 0⟩, ⟨"b", 1⟩, ⟨"c", 2⟩] :=
  ⟨by decide,
    (paginated_chain_complete [⟨"a", 0⟩, ⟨"b", 1⟩, ⟨"c", 2⟩] (by decide)
      (by decide) 2 (by decide)).1⟩

/-- Counterexample to claim C1 as frozen (which assumes only distinctness of
ids): with items `[{id := "a"}, {id := ""}]` — distinct ids — and limit 1,
the first call returns token `""`, the second call treats `""` as a missing
token and restarts from the first page with token `""` again, so the chain
loops: it revisits `"a"` forever, never visits `""`, and never returns a
`null` token (here: any fuel up to 50 calls is exhausted without
terminating, where 3 calls would suffice for two items under the claim). -/
theorem paginated_chain_cex :
    (([⟨"a", 0⟩, ⟨"", 1⟩] : List Item).map Item.id).Nodup ∧
    paginated (some 1) none [⟨"a", 0⟩, ⟨"", 1⟩]
      = some ⟨[⟨"a", 0⟩], some ""⟩ ∧
    paginated (some 1) (some "") [⟨"a", 0⟩, ⟨"", 1⟩]
      = some ⟨[⟨"a", 0⟩], some ""⟩ ∧
    collectPages (some 1) [⟨"a", 0⟩, ⟨"", 1⟩] 3 none = none ∧
    collectPages (some 1) [⟨"a", 0⟩, ⟨"", 1⟩] 50 none = none := by
  refine ⟨by decide, by decide, by decide, by decide, ?_⟩
  decide

/-- Claim C5 (amended: the token is the id of the *first item of the next
page*, i.e. the item immediately after the returned slice, not the id of the
last item of the returned slice; ids must be pairwise-distinct and
non-empty): whenever a call with positive limit `L` returns a non-null
`nextPage` token, the token is the id of the item of the collection
immediately following the returned slice, and a subsequent call passing that
token returns the next `L`-item slice, beginning with the token item
itself. -/
theorem paginated_token_is_next (items : List Item)
    (hnd : (items.map Item.id).Nodup) (hne : ∀ it ∈ items, it.id ≠ "")
    (L : ℤ) (hL : 0 < L) (tok : Option String) (page : ResultsPage)
    (t : String)
    (hp : paginated (some L) tok items = some page)
    (ht : page.nextPage = some t) :
    ∃ (s : ℕ) (nxt : Item),
      page.items = (items.drop s).take L.toNat ∧
      items[s + L.toNat]? = some nxt ∧
      t = nxt.id ∧
      ∃ page2 : ResultsPage,
        paginated (some L) (some t) items = some page2 ∧
        page2.items = (items.drop (s + L.toNat)).take L.toNat ∧
        page2.items.head? = some nxt := by
  rw [paginated_eq_of_pos L hL tok items] at hp
  by_cases hfit : items.length ≤ resolveStart tok items + L.toNat
  · rw [if_pos hfit] at hp
    obtain rfl := (Option.some_inj.mp hp).symm
    simp at ht
  · rw [if_neg hfit] at hp
    obtain rfl := (Option.some_inj.mp hp).symm
    have hlt : resolveStart tok items + L.toNat < items.length := by omega
    have hget : items[resolveStart tok items + L.toNat]?
        = some items[resolveStart tok items + L.toNat] :=
      List.getElem?_eq_getElem hlt
    simp only [hget, Option.map_some'] at ht ⊢
    obtain rfl := Option.some_inj.mp ht
    refine ⟨resolveStart tok items, items[resolveStart tok items + L.toNat],
      rfl, hget, rfl, ?_⟩
    have hmem : items[resolveStart tok items + L.toNat] ∈ items :=
      List.getElem_mem _
    have hresolve : resolveStart
        (some items[resolveStart tok items + L.toNat].id) items
        = resolveStart tok items + L.toNat :=
      resolveStart_getElem items hnd _ hlt (hne _ hmem)
    rw [paginated_eq_of_pos L hL _ items, hresolve]
    have hLpos : 0 < L.toNat := by omega
    by_cases hfit2 : items.length ≤ resolveStart tok items + L.toNat + L.toNat
    · rw [if_pos hfit2]
      have htake : items.drop (resolveStart tok items + L.toNat)
          = (items.drop (resolveStart tok items + L.toNat)).take L.toNat := by
        rw [List.take_of_length_le (by simp; omega)]
      refine ⟨_, rfl, htake, ?_⟩
      rw [List.head?_drop, hget]
    · rw [if_neg hfit2]
      refine ⟨_, rfl, rfl, ?_⟩
      rw [head?_take_pos _ _ hLpos, List.head?_drop, hget]

/-- Witness for `paginated_token_is_next`: at items a, b, c with limit 1 and
no incoming token, the returned token "b" is the first item of the next
page. -/
theorem paginated_token_is_next_witness :
    ∃ (s : ℕ) (nxt : Item),
      (ResultsPage.mk [⟨"a", 0⟩] (some "b")).items
        = (([⟨"a", 0⟩, ⟨"b", 1⟩, ⟨"c", 2⟩] : List Item).drop s).take (1 : ℤ).toNat ∧
      ([⟨"a", 0⟩, ⟨"b", 1⟩, ⟨"c", 2⟩] : List Item)[s + (1 : ℤ).toNat]? = some nxt ∧
      "b" = nxt.id ∧
      ∃ page2 : ResultsPage,
        paginated (some 1) (some "b") [⟨"a", 0⟩, ⟨"b", 1⟩, ⟨"c", 2⟩] = some page2 ∧
        page2.items
          = (([⟨"a", 0⟩, ⟨"b", 1⟩, ⟨"c", 2⟩] : List Item).drop
              (s + (1 : ℤ).toNat)).take (1 : ℤ).toNat ∧
        page2.items.head? = some nxt :=
  paginated_token_is_next [⟨"a", 0⟩, ⟨"b", 1⟩, ⟨"c", 2⟩] (by decide) (by decide)
    1 (by decide) none ⟨[⟨"a", 0⟩], some "b"⟩ "b" (by decide) rfl

/-- Counterexample to claim C5 as frozen: at items a, b, c with limit 1 and
no token, `paginated` returns the slice `[a]` — whose last (and only) item
has id "a" — but the non-null `nextPage` token is "b", the id of the *next*
item, not of the last item of the returned slice. -/
theorem paginated_token_cex :
    paginated (some 1) none [⟨"a", 0⟩, ⟨"b", 1⟩, ⟨"c", 2⟩]
      = some ⟨[⟨"a", 0⟩], some "b"⟩ ∧
    (([(⟨"a", 0⟩ : Item)].getLast?).map Item.id = some "a") ∧
    ("b" : String) ≠ "a" := by
  refine ⟨by decide, by decide, by decide⟩

/-- Claim C10: a limit of 0 (or a `null` limit) is falsy in JavaScript, so
`params.limit || 100` replaces it by the default 100: the call behaves
exactly like a call with no limit, and (with no token) returns the first
up-to-100 items rather than an empty page. -/
theorem paginated_limit_zero_default :
    ∀ (items : List Item) (tok : Option String),
      paginated (some 0) tok items = paginated none tok items ∧
      ∃ page : ResultsPage, paginated (some 0) none items = some page ∧
        page.items = items.take 100 := by
  intro items tok
  constructor
  · simp [paginated]
  · have heq : paginated (some 0) none items = paginated (some 100) none items := by
      simp [paginated]
    rw [heq, paginated_eq_of_pos 100 (by norm_num) none items]
    have h0 : resolveStart none items = 0 := rfl
    by_cases hfit : items.length ≤ resolveStart none items + (100 : ℤ).toNat
    · rw [if_pos hfit]
      refine ⟨_, rfl, ?_⟩
      rw [h0, List.drop_zero, List.take_of_length_le]
      rw [h0] at hfit
      simpa using hfit
    · rw [if_neg hfit]
      refine ⟨_, rfl, ?_⟩
      rw [h0, List.drop_zero]
      rfl

/-- The identities holding at least `role` on the exact resource, as
computed inside `userHasRole`, are characterized by membership of a matching
role assignment. -/
theorem mem_actorsWithRole_iff (db : Db) (resourceType resourceId : String)
    (role : RoleKey) (a : String) :
    ((db.roleAssignments.filter (fun ra =>
        ra.resource_type = resourceType && ra.resource_id = resourceId &&
          (roleOrStronger role).contains ra.role_name)).map
        RoleAssignment.identity_id).contains a = true ↔
      ∃ ra ∈ db.roleAssignments,
        ra.resource_type = resourceType ∧ ra.resource_id = resourceId ∧
        ra.role_name ∈ roleOrStronger role ∧ ra.identity_id = a := by
  simp only [List.elem_iff, List.mem_map, List.mem_filter]
  constructor
  · rintro ⟨ra, ⟨hmem, hcond⟩, rfl⟩
    simp only [Bool.and_eq_true, decide_eq_true_eq, List.elem_iff] at hcond
    exact ⟨ra, hmem, hcond.1.1, hcond.1.2, hcond.2, rfl⟩
  · rintro ⟨ra, hmem, h1, h2, h3, rfl⟩
    refine ⟨ra, ⟨hmem, ?_⟩, rfl⟩
    simp only [Bool.and_eq_true, decide_eq_true_eq, List.elem_iff]
    exact ⟨⟨h1, h2⟩, h3⟩

/-- The group-id list computed inside `userHasRole` is characterized by the
existence of a membership record pointing at an existing group. -/
theorem mem_userGroupIds_iff (db : Db) (user : User) (gid : String) :
    gid ∈ ((db.groupMemberships.filter (fun gm => gm.userId = user.id)).filterMap
        (fun gm => db.userGroups.find? (fun g => g.id = gm.groupId))).map
        UserGroup.id ↔
      ∃ gm ∈ db.groupMemberships, gm.userId = user.id ∧
        ∃ g ∈ db.userGroups, g.id = gm.groupId ∧ gid = g.id := by
  simp only [List.mem_map, List.mem_filterMap, List.mem_filter,
    decide_eq_true_eq]
  constructor
  · rintro ⟨g, ⟨gm, ⟨hgm, hgmid⟩, hfind⟩, rfl⟩
    have hgmem : g ∈ db.userGroups := List.mem_of_find?_eq_some hfind
    have hgid : g.id = gm.groupId := by
      have := List.find?_some hfind
      simpa using this
    exact ⟨gm, hgm, hgmid, g, hgmem, hgid, rfl⟩
  · rintro ⟨gm, hgm, hgmid, g, hgmem, hgid, rfl⟩
    have hsome : (db.userGroups.find? (fun g2 => g2.id = gm.groupId)).isSome := by
      rw [List.find?_isSome]
      exact ⟨g, hgmem, by simpa using hgid⟩
    obtain ⟨g2, hg2⟩ := Option.isSome_iff_exists.mp hsome
    have hg2id : g2.id = gm.groupId := by
      have := List.find?_some hg2
      simpa using this
    exact ⟨g2, ⟨gm, ⟨hgm, hgmid⟩, hg2⟩, by rw [hg2id, ← hgid]⟩

/-- Claim C2: `userHasRole(user, resourceType, resourceId, role)` is true iff
the user's own id, or the id of a group the user belongs to via a
group-membership record (whose group exists), appears among the identity ids
of role assignments on exactly that (resourceType, resourceId) pair whose
role name lies in the closure of `role`; the closures are viewer ↦
viewer/collaborator/admin, collaborator ↦ collaborator/admin, admin ↦ admin;
in particular an "admin" assignment on a resource satisfies the check for
every role on that exact resource, and never satisfies a check on a
different resource id, even of the same resource type. -/
theorem userHasRole_iff :
    (∀ (db : Db) (user : User) (resourceType resourceId : String)
        (role : RoleKey),
      userHasRole db user resourceType resourceId role = true ↔
        ∃ ra ∈ db.roleAssignments,
          ra.resource_type = resourceType ∧ ra.resource_id = resourceId ∧
          ra.role_name ∈ roleOrStronger role ∧
          (ra.identity_id = user.id ∨
            ∃ gm ∈ db.groupMemberships, gm.userId = user.id ∧
              ∃ g ∈ db.userGroups, g.id = gm.groupId ∧
                ra.identity_id = g.id)) ∧
    roleOrStronger .viewer = [.viewer, .collaborator, .admin] ∧
    roleOrStronger .collaborator = [.collaborator, .admin] ∧
    roleOrStronger .admin = [.admin] ∧
    (∀ (rt ri : String) (u : User) (role : RoleKey),
      userHasRole ⟨[], [], [⟨rt, ri, u.id, .admin⟩]⟩ u rt ri role = true) ∧
    (∀ (rt ri ri2 : String) (u : User) (role : RoleKey), ri ≠ ri2 →
      userHasRole ⟨[], [], [⟨rt, ri, u.id, .admin⟩]⟩ u rt ri2 role = false) := by
  refine ⟨?_, rfl, rfl, rfl, ?_, ?_⟩
  · intro db user resourceType resourceId role
    simp only [userHasRole, List.any_eq_true, List.mem_cons]
    constructor
    · rintro ⟨a, ha, hcontains⟩
      obtain ⟨ra, hmem, h1, h2, h3, h4⟩ :=
        (mem_actorsWithRole_iff db resourceType resourceId role a).mp hcontains
      refine ⟨ra, hmem, h1, h2, h3, ?_⟩
      rcases ha with rfl | hgid
      · exact Or.inl h4
      · obtain ⟨gm, hgm, hgmid, g, hgmem, hgid2, rfl⟩ :=
          (mem_userGroupIds_iff db user a).mp hgid
        exact Or.inr ⟨gm, hgm, hgmid, g, hgmem, hgid2, h4⟩
    · rintro ⟨ra, hmem, h1, h2, h3, hid⟩
      rcases hid with hid | ⟨gm, hgm, hgmid, g, hgmem, hgid, hid⟩
      · exact ⟨user.id, Or.inl rfl,
          (mem_actorsWithRole_iff db resourceType resourceId role user.id).mpr
            ⟨ra, hmem, h1, h2, h3, hid⟩⟩
      · refine ⟨g.id, Or.inr ?_, ?_⟩
        · exact (mem_userGroupIds_iff db user g.id).mpr
            ⟨gm, hgm, hgmid, g, hgmem, hgid, rfl⟩
        · exact (mem_actorsWithRole_iff db resourceType resourceId role g.id).mpr
            ⟨ra, hmem, h1, h2, h3, hid⟩
  · intro rt ri u role
    cases role <;> simp [userHasRole, roleOrStronger]
  · intro rt ri ri2 u role hne
    cases role <;> simp [userHasRole, roleOrStronger, hne]

/-- Witness for `userHasRole_iff`: a concrete admin assignment on
("project", "p1") does not satisfy a viewer check on ("project", "p2"). -/
theorem userHasRole_iff_witness :
    ("p1" : String) ≠ "p2" ∧
    userHasRole ⟨[], [], [⟨"project", "p1", "u1", .admin⟩]⟩ ⟨"u1"⟩
      "project" "p2" .viewer = false :=
  ⟨by decide,
    userHasRole_iff.2.2.2.2.2 "project" "p1" "p2" ⟨"u1"⟩ .viewer (by decide)⟩

/-- A single-range containment check succeeds exactly when the families
agree and the value sits inclusively between the endpoints. -/
theorem ipInRange_eq_true_iff (ip : IpAddr) (r : IpRange) :
    ipInRange ip r = true ↔
      ip.fam = r.first.fam ∧ r.first.val ≤ ip.val ∧ ip.val ≤ r.last.val := by
  obtain ⟨f1, v1⟩ := ip
  obtain ⟨⟨f2, v2⟩, f3, v3⟩ := r
  cases f1 <;> cases f2 <;> simp [ipInRange, ipToBigInt]

/-- Claim C4: `ipInAnyRange(ip, ranges)` is true iff some range has the same
address family as the probe and the probe's integer value lies between the
range's endpoints, inclusive of both; a probe of a different family than a
range is never contained in it (false, not an error); in particular
`ipInAnyRange("10.0.0.5", [{first: "10.0.0.0", last: "10.0.0.10"}])` is
true. -/
theorem ipInAnyRange_iff :
    (∀ (ip : IpAddr) (ranges : List IpRange),
      ipInAnyRange ip ranges = true ↔
        ∃ r ∈ ranges, ip.fam = r.first.fam ∧
          r.first.val ≤ ip.val ∧ ip.val ≤ r.last.val) ∧
    (∀ (ip : IpAddr) (r : IpRange), ip.fam ≠ r.first.fam →
      ipInRange ip r = false) ∧
    (∃ probe lo hi : IpAddr,
      parseIPv4 "10.0.0.5" = some probe ∧
      parseIPv4 "10.0.0.0" = some lo ∧
      parseIPv4 "10.0.0.10" = some hi ∧
      ipInAnyRange probe [⟨lo, hi⟩] = true) := by
  refine ⟨?_, ?_, ?_⟩
  · intro ip ranges
    simp only [ipInAnyRange, List.any_eq_true, ipInRange_eq_true_iff]
  · intro ip r hne
    cases hb : ipInRange ip r with
    | false => rfl
    | true => exact absurd ((ipInRange_eq_true_iff ip r).mp hb).1 hne
  · exact ⟨⟨IpFam.v4, 167772165⟩, ⟨IpFam.v4, 167772160⟩, ⟨IpFam.v4, 167772170⟩,
      by decide, by decide, by decide, by decide⟩

/-- Witness for `ipInAnyRange_iff`: an IPv6 probe against an IPv4 range is
not contained, regardless of its numeric value. -/
theorem ipInAnyRange_iff_witness :
    (IpAddr.mk IpFam.v6 5).fam ≠ (IpAddr.mk IpFam.v4 0).fam ∧
    ipInRange ⟨IpFam.v6, 5⟩ ⟨⟨IpFam.v4, 0⟩, ⟨IpFam.v4, 10⟩⟩ = false :=
  ⟨by decide,
    ipInAnyRange_iff.2.1 ⟨IpFam.v6, 5⟩ ⟨⟨IpFam.v4, 0⟩, ⟨IpFam.v4, 10⟩⟩ (by decide)⟩

/-- The summed series always has exactly `arrLen` entries. -/
theorem sumValues_length (timeseries : List Timeseries) (arrLen : ℕ) :
    (sumValues timeseries arrLen).length = arrLen := by
  simp [sumValues]

/-- Claim C3: at every index `i`, the summed series holds the sum of exactly
those timeseries values that are numeric (non-absent, in-range) at `i`, and
is `null` when no timeseries has a numeric value there — never substituting
0 for absence; e.g. series [1, null, 3] and [2, 3, null] sum to [3, 3, 3],
and an index where all series are absent sums to null. -/
theorem sumValues_spec :
    (∀ (timeseries : List Timeseries) (arrLen i : ℕ), i < arrLen →
      (sumValues timeseries arrLen)[i]? =
        some (if (timeseries.filterMap (fun ts =>
            ((ts.points.values.head?).bind (fun va => va.values[i]?)).join)) = []
          then none
          else some (timeseries.filterMap (fun ts =>
            ((ts.points.values.head?).bind (fun va => va.values[i]?)).join)).sum)) ∧
    sumValues [⟨⟨[0, 1, 2], [⟨[some 1, none, some 3]⟩]⟩⟩,
               ⟨⟨[0, 1, 2], [⟨[some 2, some 3, none]⟩]⟩⟩] 3
      = [some 3, some 3, some 3] ∧
    sumValues [⟨⟨[0, 1], [⟨[some 1, none]⟩]⟩⟩,
               ⟨⟨[0, 1], [⟨[some 2, none]⟩]⟩⟩] 2
      = [some 3, none] := by
  refine ⟨?_, ?_, ?_⟩
  · intro timeseries arrLen i hi
    simp only [sumValues, List.getElem?_map, List.getElem?_range hi,
      Option.map_some']
    congr 1
    cases h : timeseries.filterMap (fun ts =>
        ((ts.points.values.head?).bind (fun va => va.values[i]?)).join) with
    | nil => simp [h]
    | cons x xs => simp [h]
  · show (List.range 3).map _ = _
    norm_num [List.range_succ, List.filterMap_cons]
  · show (List.range 2).map _ = _
    norm_num [List.range_succ, List.filterMap_cons]

/-- Witness for `sumValues_spec` at index 1 of the worked example: the middle
entry sums only the single defined value 3. -/
theorem sumValues_spec_witness :
    (1 : ℕ) < 3 ∧
    (sumValues [⟨⟨[0, 1, 2], [⟨[some 1, none, some 3]⟩]⟩⟩,
                ⟨⟨[0, 1, 2], [⟨[some 2, some 3, none]⟩]⟩⟩] 3)[1]? =
      some (if (([⟨⟨[0, 1, 2], [⟨[some 1, none, some 3]⟩]⟩⟩,
            ⟨⟨[0, 1, 2], [⟨[some 2, some 3, none]⟩]⟩⟩] :
              List Timeseries).filterMap (fun ts =>
          ((ts.points.values.head?).bind (fun va => va.values[1]?)).join)) = []
        then none
        else some (([⟨⟨[0, 1, 2], [⟨[some 1, none, some 3]⟩]⟩⟩,
            ⟨⟨[0, 1, 2], [⟨[some 2, some 3, none]⟩]⟩⟩] :
              List Timeseries).filterMap (fun ts =>
          ((ts.points.values.head?).bind (fun va => va.values[1]?)).join)).sum) :=
  ⟨by norm_num,
    sumValues_spec.1 [⟨⟨[0, 1, 2], [⟨[some 1, none, some 3]⟩]⟩⟩,
      ⟨⟨[0, 1, 2], [⟨[some 2, some 3, none]⟩]⟩⟩] 3 1 (by norm_num)⟩

/-- Claim C6: for a query result with at least one timeseries (with a
non-empty shared timestamp axis), `composeOxqlData` drops exactly the first
point: its chartData is the timestamp/summed-value pairs from index 1
onward, one fewer point than the axis; and the compensating
`getTimePropsForOxqlQuery(startTime, endTime)` (default 60 datapoints)
returns an `adjustedStart` exactly twice the computed mean window (in
seconds) before `startTime`. -/
theorem composeOxqlData_drops_first (data : OxqlQueryResult) (table : Table)
    (ts0 : Timeseries)
    (h1 : data.tables.head? = some table)
    (h2 : table.timeseries.head? = some ts0)
    (hax : ts0.points.timestamps ≠ []) :
    (∃ chartData : List ChartDatum,
      composeOxqlData (some data) = some (chartData, table.timeseries.length) ∧
      chartData.length + 1 = ts0.points.timestamps.length ∧
      ∀ i : ℕ, chartData[i]? =
        ((ts0.points.timestamps.zip
            (sumValues table.timeseries ts0.points.timestamps.length)).map
          (fun p => ChartDatum.mk p.1 p.2))[i + 1]?) ∧
    ∀ startMs endMs : ℤ,
      (getTimePropsForOxqlQuery startMs endMs 60).adjustedStart
        = startMs - 2 * getMeanWithinSeconds startMs endMs 60 * 1000 := by
  constructor
  · have hcount : table.timeseries.length ≠ 0 := by
      cases htl : table.timeseries with
      | nil => rw [htl] at h2; simp at h2
      | cons a l => simp [htl]
    refine ⟨((ts0.points.timestamps.zip
        (sumValues table.timeseries ts0.points.timestamps.length)).map
        (fun p => ChartDatum.mk p.1 p.2)).drop 1, ?_, ?_, ?_⟩
    · simp only [composeOxqlData, h1, h2, if_neg hcount]
    · have hzlen : ((ts0.points.timestamps.zip
          (sumValues table.timeseries ts0.points.timestamps.length)).map
          (fun p => ChartDatum.mk p.1 p.2)).length
          = ts0.points.timestamps.length := by
        simp [List.length_zip, sumValues_length]
      have hpos : 0 < ts0.points.timestamps.length := List.length_pos.mpr hax
      simp only [List.length_drop, hzlen]
      omega
    · intro i
      rw [List.getElem?_drop]
      congr 1
      omega
  · intro startMs endMs
    simp only [getTimePropsForOxqlQuery]
    ring

/-- Witness for `composeOxqlData_drops_first` at a one-timeseries result
with three timestamps. -/
theorem composeOxqlData_drops_first_witness :
    (∃ chartData : List ChartDatum,
      composeOxqlData (some ⟨[⟨[⟨⟨[10, 20, 30], [⟨[some 1, none, some 3]⟩]⟩⟩]⟩]⟩)
        = some (chartData,
            (Table.mk [⟨⟨[10, 20, 30], [⟨[some 1, none, some 3]⟩]⟩⟩]).timeseries.length) ∧
      chartData.length + 1
        = (Timeseries.mk ⟨[10, 20, 30], [⟨[some 1, none, some 3]⟩]⟩).points.timestamps.length ∧
      ∀ i : ℕ, chartData[i]? =
        (((Timeseries.mk ⟨[10, 20, 30], [⟨[some 1, none, some 3]⟩]⟩).points.timestamps.zip
            (sumValues (Table.mk [⟨⟨[10, 20, 30], [⟨[some 1, none, some 3]⟩]⟩⟩]).timeseries
              (Timeseries.mk ⟨[10, 20, 30], [⟨[some 1, none, some 3]⟩]⟩).points.timestamps.length)).map
          (fun p => ChartDatum.mk p.1 p.2))[i + 1]?) ∧
    ∀ startMs endMs : ℤ,
      (getTimePropsForOxqlQuery startMs endMs 60).adjustedStart
        = startMs - 2 * getMeanWithinSeconds startMs endMs 60 * 1000 :=
  composeOxqlData_drops_first ⟨[⟨[⟨⟨[10, 20, 30], [⟨[some 1, none, some 3]⟩]⟩⟩]⟩]⟩
    ⟨[⟨⟨[10, 20, 30], [⟨[some 1, none, some 3]⟩]⟩⟩]⟩
    ⟨⟨[10, 20, 30], [⟨[some 1, none, some 3]⟩]⟩⟩ rfl rfl (by decide)

/-- Claim C7: `getUtilizationChartProps` with `nCPUs = 0` returns an empty
data array regardless of the input values (the division is guarded, never
performed with a zero divisor); with `nCPUs > 0`, each non-null value `v`
maps to `v * 100 / (5·10⁹·nCPUs)` and null values stay null. -/
theorem getUtilizationChartProps_guarded :
    (∀ chartData : List ChartDatum,
      (getUtilizationChartProps chartData 0).data = []) ∧
    (∀ (chartData : List ChartDatum) (nCPUs : ℚ), 0 < nCPUs →
      (getUtilizationChartProps chartData nCPUs).data =
        chartData.map (fun d => ChartDatum.mk d.timestamp
          (d.value.map (fun v => v * 100 / (5 * 10 ^ 9 * nCPUs))))) := by
  constructor
  · intro chartData
    simp [getUtilizationChartProps]
  · intro chartData nCPUs hn
    have hdiv : (VCPU_KSTAT_INTERVAL_SEC : ℚ) * 1000 * 1000 * 1000 * nCPUs
        = 5 * 10 ^ 9 * nCPUs := by
      norm_num [VCPU_KSTAT_INTERVAL_SEC]
    have hpos : (0 : ℚ) < 5 * 10 ^ 9 * nCPUs := by positivity
    simp only [getUtilizationChartProps, hdiv, if_pos hpos]

/-- Witness for `getUtilizationChartProps_guarded` at 2 CPUs. -/
theorem getUtilizationChartProps_guarded_witness :
    (0 : ℚ) < 2 ∧
    (getUtilizationChartProps [⟨0, some 1000⟩] 2).data =
      [⟨0, some (1000 * 100 / (5 * 10 ^ 9 * 2))⟩] :=
  ⟨by norm_num, (getUtilizationChartProps_guarded.2 [⟨0, some 1000⟩] 2 (by norm_num))⟩

/-- Claim C9: when the largest value of a byte chart is 2,000,000, the
selected exponent is 2 (because 1024² ≤ 2,000,000 < 1024³), so
every non-null value is divided by 1024² and the unit is "MiB". -/
theorem getBytesChartProps_mib (chartData : List ChartDatum)
    (h : getLargestValue chartData = 2000000) :
    getMaxExponent (getLargestValue chartData) 1024 = 2 ∧
    (getBytesChartProps chartData).unitForSet = some "MiB" ∧
    (getBytesChartProps chartData).data =
      chartData.map (fun d => ChartDatum.mk d.timestamp
        (d.value.map (fun v => v / 1024 ^ 2))) := by
  have hexp : getMaxExponent (2000000 : ℚ) 1024 = 2 := by
    rw [getMaxExponent, if_pos (by norm_num)]
    have hfl : ⌊(2000000 : ℚ)⌋₊ = 2000000 := by norm_num
    rw [hfl]
    exact Nat.log_eq_of_pow_le_of_lt_pow (by norm_num) (by norm_num)
  refine ⟨h ▸ hexp, ?_, ?_⟩
  · simp only [getBytesChartProps, h, hexp]
    rfl
  · simp only [getBytesChartProps, h, hexp]
    rfl

/-- Witness for `getBytesChartProps_mib` at a single 2,000,000-byte
datum. -/
theorem getBytesChartProps_mib_witness :
    getLargestValue [⟨0, some 2000000⟩] = 2000000 ∧
    (getBytesChartProps [⟨0, some 2000000⟩]).unitForSet = some "MiB" := by
  have hlv : getLargestValue [⟨0, some 2000000⟩] = 2000000 := by
    norm_num [getLargestValue, List.filterMap_cons, List.foldl_cons, List.foldl_nil]
  exact ⟨hlv, (getBytesChartProps_mib [⟨0, some 2000000⟩] hlv).2.1⟩
/-- A walk step from a non-negative value stays non-negative: the offset is
only added when `random > 0.72`, in which case it cannot have been negated
(negation needs `random < threshold / 2.5 ≤ 0.4`), and subtraction is
floored at 0. -/
theorem walkStep_nonneg (i : ℕ) (prev : ℚ) (seed : ℤ) (h : 0 ≤ prev) :
    0 ≤ walkStep i prev seed := by
  simp only [walkStep]
  set R : ℚ := randoFrac seed with hR
  by_cases h72 : R > 0.72
  · rw [if_pos h72]
    have hT : (if i < 250 ∨ (500 < i ∧ i < 750) then (1 : ℚ) else 0.375) ≤ 1 := by
      split <;> norm_num
    set T : ℚ := if i < 250 ∨ (500 < i ∧ i < 750) then (1 : ℚ) else 0.375 with hTdef
    have hO : (0 : ℤ) ≤
        (if R < T then if R < T / 2.5 then -⌊R * 50⌋ else ⌊R * 50⌋ else 0) := by
      by_cases hRT : R < T
      · rw [if_pos hRT]
        by_cases hR25 : R < T / 2.5
        · exfalso
          have h04 : T / 2.5 ≤ 0.4 := by
            rw [div_le_iff₀ (by norm_num : (0 : ℚ) < 2.5)]
            have h1 : (0.4 : ℚ) * 2.5 = 1 := by norm_num
            rw [h1]
            exact hT
          linarith
        · rw [if_neg hR25]
          refine Int.floor_nonneg.mpr ?_
          have : (0 : ℚ) ≤ R := by linarith
          positivity
      · rw [if_neg hRT]
    have hOq : (0 : ℚ) ≤
        ((if R < T then if R < T / 2.5 then -⌊R * 50⌋ else ⌊R * 50⌋ else 0 : ℤ) : ℚ) := by
      exact_mod_cast hO
    linarith
  · rw [if_neg h72]
    exact le_max_right _ _

/-- Every value the walk produces from a non-negative start is
non-negative. -/
theorem genWalk_nonneg (valueInterval : Option ℕ) :
    ∀ (rem i x : ℕ) (prev : ℚ) (seed : ℤ), 0 ≤ prev →
      ∀ v ∈ genWalk valueInterval rem i prev x seed, 0 ≤ v := by
  intro rem
  induction rem with
  | zero =>
    intro i x prev seed h v hv
    simp [genWalk] at hv
  | succ rem ih =>
    intro i x prev seed h v hv
    rw [genWalk] at hv
    by_cases hvi : valueInterval = some x
    · rw [if_pos hvi] at hv
      rcases List.mem_cons.mp hv with rfl | hv2
      · exact walkStep_nonneg i prev seed h
      · exact ih (i + 1) 0 (walkStep i prev seed) (randoNext seed)
          (walkStep_nonneg i prev seed h) v hv2
    · rw [if_neg hvi] at hv
      rcases List.mem_cons.mp hv with rfl | hv2
      · exact h
      · exact ih (i + 1) (x + 1) prev seed h v hv2

/-- The fold of `max` never goes below its initial accumulator. -/
theorem le_foldl_max (l : List ℚ) : ∀ a : ℚ, a ≤ l.foldl max a := by
  induction l with
  | nil => intro a; simp
  | cons h t ih =>
    intro a
    calc a ≤ max a h := le_max_left a h
    _ ≤ (h :: t).foldl max a := by simpa using ih (max a h)

/-- Every member of the list is bounded by the fold of `max`. -/
theorem mem_le_foldl_max (l : List ℚ) : ∀ (a v : ℚ), v ∈ l → v ≤ l.foldl max a := by
  induction l with
  | nil => intro a v hv; simp at hv
  | cons h t ih =>
    intro a v hv
    rcases List.mem_cons.mp hv with rfl | hv2
    · have h1 : v ≤ max a v := le_max_right a v
      have h2 : max a v ≤ t.foldl max (max a v) := le_foldl_max t (max a v)
      simpa using le_trans h1 h2
    · simpa using ih (max a h) v hv2

/-- `Math.max(...list)` bounds every member of the list. -/
theorem mem_le_jsMax (l : List ℚ) (v : ℚ) (hv : v ∈ l) : v ≤ jsMax l := by
  cases l with
  | nil => simp at hv
  | cons h t =>
    rcases List.mem_cons.mp hv with rfl | hv2
    · simpa [jsMax] using le_foldl_max t v
    · simpa [jsMax] using mem_le_foldl_max t h v hv2

/-- A single normalized value `value / max · cap · f` lies in `[0, cap]`
when the values are non-negative, contain 500, and `0 ≤ f ≤ 1`. -/
theorem normalizedValue_bounds (values : List ℚ) (h500 : (500 : ℚ) ∈ values)
    (hnn : ∀ u ∈ values, 0 ≤ u) (value : ℚ) (hval : value ∈ values)
    (cap f : ℚ) (hcap : 0 ≤ cap) (hf0 : 0 ≤ f) (hf1 : f ≤ 1) :
    0 ≤ value / jsMax values * cap * f ∧ value / jsMax values * cap * f ≤ cap := by
  have hM500 : (500 : ℚ) ≤ jsMax values := mem_le_jsMax values 500 h500
  have hMpos : (0 : ℚ) < jsMax values := lt_of_lt_of_le (by norm_num) hM500
  have hvle : value ≤ jsMax values := mem_le_jsMax values value hval
  have hvnn : 0 ≤ value := hnn value hval
  have hfrac1 : value / jsMax values ≤ 1 := (div_le_one hMpos).mpr hvle
  have hfrac0 : 0 ≤ value / jsMax values := div_nonneg hvnn (le_of_lt hMpos)
  constructor
  · exact mul_nonneg (mul_nonneg hfrac0 hcap) hf0
  · have h1 : 0 ≤ value / jsMax values * cap := mul_nonneg hfrac0 hcap
    have h2 : value / jsMax values * cap * f ≤ value / jsMax values * cap * 1 :=
      mul_le_mul_of_nonneg_left hf1 h1
    have h3 : value / jsMax values * cap ≤ 1 * cap :=
      mul_le_mul_of_nonneg_right hfrac1 hcap
    calc value / jsMax values * cap * f
        ≤ value / jsMax values * cap * 1 := h2
      _ = value / jsMax values * cap := by ring
      _ ≤ 1 * cap := h3
      _ = cap := one_mul cap

/-- Claim C8: every value of `generateUtilization` lies in `[0, capacity]`,
where `capacity` is the cluster capacity selected for the metric kind (CPU
count, disk bytes or RAM bytes); for `cpus_provisioned` every value is
additionally a whole number (floored).  The capacity fields are assumed
non-negative and `rand` is the `Math.random()` sample, in `[0, 1)`. -/
theorem generateUtilization_bounds (metricName : SystemMetricName)
    (startTimeMs endTimeMs nowMs : ℤ) (capacity : Capacity) (rand : ℚ)
    (hcpu : 0 ≤ capacity.cpu) (hdisk : 0 ≤ capacity.disk_tib)
    (hram : 0 ≤ capacity.ram_gib) (hr0 : 0 ≤ rand) (hr1 : rand < 1) :
    ∀ v ∈ generateUtilization metricName startTimeMs endTimeMs nowMs capacity rand,
      0 ≤ v ∧ v ≤ selectedCapacity metricName capacity ∧
      (metricName = SystemMetricName.cpus_provisioned → ∃ k : ℤ, v = (k : ℚ)) := by
  intro v hv
  simp only [generateUtilization] at hv
  obtain ⟨value, hmem, rfl⟩ := List.mem_map.mp hv
  have hnn : ∀ u ∈ (500 : ℚ) :: genWalk
      (if (differenceInSeconds
          (max startTimeMs (nowMs - 1000 * 60 * 60 * 24 * 90)) endTimeMs).natAbs = 0
        then none
        else some (900000 / (differenceInSeconds
          (max startTimeMs (nowMs - 1000 * 60 * 60 * 24 * 90)) endTimeMs).natAbs))
      999 1 500 0
      (max startTimeMs (nowMs - 1000 * 60 * 60 * 24 * 90)
        + (metricNameSeed metricName : ℤ)), 0 ≤ u := by
    intro u hu
    rcases List.mem_cons.mp hu with rfl | hu2
    · norm_num
    · exact genWalk_nonneg _ 999 1 0 500 _ (by norm_num) u hu2
  have hcap : 0 ≤ selectedCapacity metricName capacity := by
    cases metricName with
    | cpus_provisioned => exact hcpu
    | virtual_disk_space_provisioned =>
      exact mul_nonneg hdisk (by norm_num [TiB])
    | ram_provisioned => exact mul_nonneg hram (by norm_num [GiB])
  have hf0 : (0 : ℚ) ≤ rand * (1 - 0.33) + 0.33 := by nlinarith
  have hf1 : rand * (1 - 0.33) + 0.33 ≤ 1 := by nlinarith
  have hX := normalizedValue_bounds _ (List.mem_cons_self _ _) hnn value hmem
    (selectedCapacity metricName capacity) (rand * (1 - 0.33) + 0.33)
    hcap hf0 hf1
  by_cases hcm : metricName = SystemMetricName.cpus_provisioned
  · simp only [if_pos hcm]
    refine ⟨?_, ?_, fun _ => ⟨_, rfl⟩⟩
    · exact_mod_cast Int.floor_nonneg.mpr hX.1
    · exact le_trans (Int.floor_le _) hX.2
  · simp only [if_neg hcm]
    exact ⟨hX.1, hX.2, fun hc => absurd hc hcm⟩

/-- Witness for `generateUtilization_bounds` at a concrete capacity and
random sample. -/
theorem generateUtilization_bounds_witness :
    (0 : ℚ) ≤ 8 ∧ (0 : ℚ) ≤ 10 ∧ (0 : ℚ) ≤ 64 ∧ (0 : ℚ) ≤ 1/2 ∧ (1/2 : ℚ) < 1 ∧
    ∀ v ∈ generateUtilization SystemMetricName.cpus_provisioned 0 86400000 0
        ⟨8, 10, 64⟩ (1/2),
      0 ≤ v ∧ v ≤ selectedCapacity SystemMetricName.cpus_provisioned ⟨8, 10, 64⟩ ∧
      (SystemMetricName.cpus_provisioned = SystemMetricName.cpus_provisioned →
        ∃ k : ℤ, v = (k : ℚ)) :=
  ⟨by norm_num, by norm_num, by norm_num, by norm_num, by norm_num,
    generateUtilization_bounds SystemMetricName.cpus_provisioned 0 86400000 0
      ⟨8, 10, 64⟩ (1/2) (by norm_num) (by norm_num) (by norm_num) (by norm_num)
      (by norm_num)⟩

end Console
